import Mathlib

/-!
Verification of the energy-flow optimization model builder
(`optimization_model.py`).  The Python module assembles a linear program
from a declarative network description (buses, simple transformers, CHP
components), over a list of timesteps, optionally with investment
variables, and dispatches it to an external LP solver.

The embedding below translates the model builder faithfully:
pure helpers become Lean functions, the Pyomo constraint rules become
functions producing symbolic linear expressions, and Python runtime
errors (IndexError from `inputs[0]` / `outputs[1]`, KeyError from the
capacity dictionary) become `Except String` failures raised at the same
program points and in the same evaluation order as in the source.
-/

namespace EnergyModel

/-- Unique identifier of a bus or component (Python uses string `uid`). -/
abbrev Uid := String

/-- A directed edge `(source uid, destination uid)`. -/
abbrev Edge := Uid × Uid

/-- A bus: network node with a unique id and a free-form type tag
(`cp.Bus(uid=..., type=...)`). -/
structure Bus where
  uid : Uid
  type : String
deriving DecidableEq, Repr, Inhabited

/-- A conversion component with a unique id, an ordered list of input
buses and an ordered list of output buses.  `eta` is the scalar
efficiency carried by `SimpleTransformer`; plain `Transformer` (CHP)
instances carry no efficiency and the CHP constraint code never reads
this field. -/
structure Component where
  uid : Uid
  inputs : List Bus
  outputs : List Bus
  eta : ℚ
deriving DecidableEq, Repr, Inhabited

/-- `get_edges(components)` from the source: for each component in list
order, append one edge `(input.uid, component.uid)` per input in
input-list order, then one edge `(component.uid, output.uid)` per output
in output-list order, into a single accumulating list. -/
def get_edges (components : List Component) : List Edge :=
  components.foldl
    (fun edges c =>
      let edges1 := c.inputs.foldl (fun es i => es ++ [(i.uid, c.uid)]) edges
      c.outputs.foldl (fun es o => es ++ [(c.uid, o.uid)]) edges1)
    []

/-- Folding repeated single-element appends over a list equals appending
the mapped list. -/
theorem foldl_push {α β : Type} (f : α → β) (l : List α) (acc : List β) :
    l.foldl (fun es x => es ++ [f x]) acc = acc ++ l.map f := by
  induction l generalizing acc with
  | nil => simp
  | cons x xs ih => simp [ih]

/-- The edges contributed by a single component: input edges in order,
then output edges in order. -/
def edgesOf (c : Component) : List Edge :=
  c.inputs.map (fun i => (i.uid, c.uid)) ++ c.outputs.map (fun o => (c.uid, o.uid))

/-- The accumulator of `get_edges` distributes over the component list. -/
theorem get_edges_foldl_eq (cs : List Component) (acc : List Edge) :
    cs.foldl
      (fun edges c =>
        let edges1 := c.inputs.foldl (fun es i => es ++ [(i.uid, c.uid)]) edges
        c.outputs.foldl (fun es o => es ++ [(c.uid, o.uid)]) edges1)
      acc = acc ++ cs.flatMap edgesOf := by
  induction cs generalizing acc with
  | nil => simp
  | cons c cs ih =>
      rw [List.foldl_cons, ih]
      simp [edgesOf, foldl_push, List.append_assoc]

/-- `get_edges` equals the concatenation, in component-list order, of
each component input edges then output edges. -/
theorem get_edges_eq_flatMap (cs : List Component) :
    get_edges cs = cs.flatMap edgesOf := by
  simpa using get_edges_foldl_eq cs []

/-- Claim C6: for every list of components, edge derivation returns the
ordered sequence obtained by, for each component in list order, first
emitting one edge (input.uid, component.uid) per input in input-list
order and then one edge (component.uid, output.uid) per output in
output-list order, with no deduplication of repeated pairs. -/
theorem get_edges_ordered_emission (cs : List Component) :
    get_edges cs = cs.flatMap (fun c =>
      c.inputs.map (fun i => (i.uid, c.uid)) ++
      c.outputs.map (fun o => (c.uid, o.uid))) :=
  get_edges_eq_flatMap cs

/-- Claim C10: edge derivation is a list homomorphism: it maps append to
append and nil to nil, and its output length is the sum over components
of (number of inputs + number of outputs). -/
theorem get_edges_homomorphism (xs ys : List Component) :
    get_edges (xs ++ ys) = get_edges xs ++ get_edges ys ∧
    get_edges ([] : List Component) = [] ∧
    (get_edges xs).length =
      (xs.map (fun c => c.inputs.length + c.outputs.length)).sum := by
  refine ⟨?_, ?_, ?_⟩
  · simp [get_edges_eq_flatMap]
  · simp [get_edges_eq_flatMap]
  · rw [get_edges_eq_flatMap]
    induction xs with
    | nil => simp
    | cons c cs ih =>
        simp [edgesOf, ih]
        omega

/-- Decision variables of the Pyomo model: one flow variable `w` per
(edge, timestep) and, in investment mode, one variable `w_add` per
edge. -/
inductive Var where
  | w : Edge → Nat → Var
  | w_add : Edge → Var
deriving DecidableEq, Repr

/-- Symbolic linear expressions as the Pyomo rules build them:
constants, variables, sums, unary negation, multiplication and division
by a scalar. -/
inductive Expr where
  | const : ℚ → Expr
  | var : Var → Expr
  | add : Expr → Expr → Expr
  | neg : Expr → Expr
  | mulc : Expr → ℚ → Expr
  | divc : Expr → ℚ → Expr
deriving DecidableEq, Repr, Inhabited

/-- Value of an expression under an assignment of the variables. -/
def Expr.eval (a : Var → ℚ) : Expr → ℚ
  | .const q => q
  | .var v => a v
  | .add e f => e.eval a + f.eval a
  | .neg e => - e.eval a
  | .mulc e q => e.eval a * q
  | .divc e q => e.eval a / q

/-- Python `sum` over a list of expressions: left fold of addition
starting from 0. -/
def sumE (l : List Expr) : Expr :=
  l.foldl Expr.add (Expr.const 0)

/-- A constraint as the rules return it: `eq e r` is the 2-tuple form
`return (expr, r)` (equality `expr = r`), `le e f` is `expr <= f`. -/
inductive Constr where
  | eq : Expr → ℚ → Constr
  | le : Expr → Expr → Constr
deriving DecidableEq, Repr

/-- Satisfaction of a constraint under an assignment. -/
def Constr.sat (a : Var → ℚ) : Constr → Prop
  | .eq e r => e.eval a = r
  | .le e f => e.eval a ≤ f.eval a

theorem sumE_foldl_eval (a : Var → ℚ) (l : List Expr) (e : Expr) :
    (l.foldl Expr.add e).eval a = e.eval a + (l.map (Expr.eval a)).sum := by
  induction l generalizing e with
  | nil => simp
  | cons x xs ih => simp [ih, Expr.eval]; ring

/-- Evaluating a Python-style sum of expressions gives the sum of the
values. -/
theorem sumE_eval (a : Var → ℚ) (l : List Expr) :
    (sumE l).eval a = (l.map (Expr.eval a)).sum := by
  simp [sumE, sumE_foldl_eval, Expr.eval]

/-- `bus_rule(m, e, t)` from the source:
`expr = 0; expr += -sum(w[(i,j),t] for (i,j) in edges if i==e);
expr += +sum(w[(i,j),t] for (i,j) in edges if j==e); return (expr, 0)`. -/
def bus_rule (edges : List Edge) (e : Uid) (t : Nat) : Constr :=
  let expr0 : Expr := .const 0
  let expr1 : Expr := .add expr0
    (.neg (sumE ((edges.filter fun ij => ij.1 == e).map fun ij => .var (.w ij t))))
  let expr2 : Expr := .add expr1
    (sumE ((edges.filter fun ij => ij.2 == e).map fun ij => .var (.w ij t)))
  .eq expr2 0

/-- The transformer `eta_rule`: for component `e` with first input `I[e]`,
first output `O[e]` and efficiency `eta[e]`,
`expr = 0 + w[I[e],e,t]*eta[e] + (-w[e,O[e],t]); return (expr, 0)`.
Indexing `inputs[0]` / `outputs[0]` on an empty list raises IndexError. -/
def s_transformer_eta_rule (c : Component) (t : Nat) : Except String Constr :=
  match c.inputs, c.outputs with
  | i :: _, o :: _ =>
      .ok (.eq (.add (.add (.const 0) (.mulc (.var (.w (i.uid, c.uid) t)) c.eta))
        (.neg (.var (.w (c.uid, o.uid) t)))) 0)
  | _, _ => .error "IndexError: list index out of range"

/-- The CHP `eta_rule`: for component `e` with first input `I[e]` and
output uid list `O[e]`,
`expr = 0 + w[I[e],e,t] + (-sum(w[e,o,t] for o in O[e])) / 0.8;
return (expr, 0)`.  `inputs[0]` on an empty list raises IndexError. -/
def s_chp_eta_rule (c : Component) (t : Nat) : Except String Constr :=
  match c.inputs with
  | i :: _ =>
      .ok (.eq (.add (.add (.const 0) (.var (.w (i.uid, c.uid) t)))
        (.divc (.neg (sumE (c.outputs.map fun o => .var (.w (c.uid, o.uid) t))))
          (0.8 : ℚ))) 0)
  | [] => .error "IndexError: list index out of range"

/-- The CHP `power_to_heat_rule`:
`expr = 0 + w[e,O[e][0],t] + (-w[e,O[e][1],t]) * 0.6; return (expr, 0)`.
`O[e][1]` raises IndexError when the CHP has fewer than two outputs. -/
def power_to_heat_rule (c : Component) (t : Nat) : Except String Constr :=
  match c.outputs with
  | p :: h :: _ =>
      .ok (.eq (.add (.add (.const 0) (.var (.w (c.uid, p.uid) t)))
        (.mulc (.neg (.var (.w (c.uid, h.uid) t))) (0.6 : ℚ))) 0)
  | _ => .error "IndexError: list index out of range"

/-- `m.w_max = dict(zip(edges, [100]*len(edges)))`: the capacity
dictionary maps each declared edge to 100; lookup of a missing key
raises KeyError (`none`). -/
def w_max_dict (edges : List Edge) : Edge → Option ℚ :=
  fun e => if e ∈ edges then some (100 : ℚ) else none

/-- `w_bound_investment(m, i, j, t)`: `w[i,j,t] <= w_max[i,j] + w_add[i,j]`.
The dictionary lookup `w_max[i,j]` raises KeyError for an unknown edge. -/
def w_bound_investment (wmax : Edge → Option ℚ) (ij : Edge) (t : Nat) :
    Except String Constr :=
  match wmax ij with
  | some cap => .ok (.le (.var (.w ij t)) (.add (.const cap) (.var (.w_add ij))))
  | none => .error "KeyError"

/-- The index set of a Pyomo constraint declared over a component list
and the timestep list: all pairs, outer loop over the first set. -/
def indexPairs {α : Type} (cs : List α) (ts : List Nat) : List (α × Nat) :=
  cs.flatMap fun c => ts.map fun t => (c, t)

/-- Effectful map over a list in the `Except` monad, stopping at the
first error, mirroring how Pyomo evaluates a constraint rule index by
index and propagates the first Python exception. -/
def mapME {α β : Type} (f : α → Except String β) : List α → Except String (List β)
  | [] => .ok []
  | x :: xs =>
      match f x with
      | .error e => .error e
      | .ok y =>
          match mapME f xs with
          | .error e => .error e
          | .ok ys => .ok (y :: ys)

/-- Builds one indexed constraint family: the rule is evaluated at every
(component, timestep) pair and the resulting constraints are keyed by
(component uid, timestep). -/
def constraintFamily (rule : Component → Nat → Except String Constr)
    (cs : List Component) (ts : List Nat) :
    Except String (List ((Uid × Nat) × Constr)) :=
  mapME (fun ct =>
      match rule ct.1 ct.2 with
      | .error e => .error e
      | .ok k => .ok ((ct.1.uid, ct.2), k))
    (indexPairs cs ts)

/-- The investment-mode capacity constraints `s_transformer_w_max`,
declared over `get_edges(s_transformers)` and the timesteps. -/
def s_transformer_w_max_constraints (s_transformers : List Component)
    (ts : List Nat) (wmax : Edge → Option ℚ) :
    Except String (List ((Edge × Nat) × Constr)) :=
  mapME (fun et =>
      match w_bound_investment wmax et.1 et.2 with
      | .error e => .error e
      | .ok k => .ok ((et.1, et.2), k))
    (indexPairs (get_edges s_transformers) ts)

/-- `obj_rule(m)`: `sum(w[i,j,t] for (i,j) in edges for t in timesteps)`,
edges in the outer loop. -/
def obj_rule (edges : List Edge) (ts : List Nat) : Expr :=
  sumE (edges.flatMap fun ij => ts.map fun t => Expr.var (.w ij t))

/-- The entities dictionary handed to `opt_model`: lists of buses,
simple transformers and simple CHP components. -/
structure Entities where
  buses : List Bus
  s_transformers : List Component
  s_chps : List Component
deriving DecidableEq, Repr, Inhabited

/-- The assembled Pyomo `ConcreteModel`: index sets, variable bounds and
declarations, the five constraint families and the objective.
`w_index` and `w_add_index` record which variable indices are declared;
`w_lower`/`w_upper` record the bounds attached to `w` at declaration
time (`none` = unbounded above). -/
structure Model where
  invest : Bool
  timesteps : List Nat
  buses : List Uid
  s_transformers : List Uid
  s_chps : List Uid
  edges : List Edge
  w_max : Edge → Option ℚ
  w_index : List (Edge × Nat)
  w_lower : Edge → Nat → ℚ
  w_upper : Edge → Nat → Option ℚ
  w_add_index : List Edge
  bus_constr : List ((Uid × Nat) × Constr)
  s_chp_eta_constr : List ((Uid × Nat) × Constr)
  s_chp_pth_constr : List ((Uid × Nat) × Constr)
  s_transformer_eta_constr : List ((Uid × Nat) × Constr)
  s_transformer_w_max : List ((Edge × Nat) × Constr)
  objective : Expr
deriving Inhabited

/-- `opt_model(entities, edges, timesteps, invest)` from the source.
The construction order follows the Python code: variable declarations
and bounds, the bus balance family, then `simple_chp_model(m)` (energy
balance family, then power-to-heat family), then
`simple_transformer_model(m)` (efficiency family, then in investment
mode the capacity family over `get_edges(s_transformers)`), then the
objective.  A Python exception raised while a family is generated
aborts the build with that error, leaving the earlier families already
generated. -/
def opt_model (entities : Entities) (edges : List Edge) (timesteps : List Nat)
    (invest : Bool) : Except String Model :=
  match constraintFamily s_chp_eta_rule entities.s_chps timesteps with
  | .error e => .error e
  | .ok chpEta =>
    match constraintFamily power_to_heat_rule entities.s_chps timesteps with
    | .error e => .error e
    | .ok chpPth =>
      match constraintFamily s_transformer_eta_rule entities.s_transformers timesteps with
      | .error e => .error e
      | .ok stEta =>
        match (if invest then
                 s_transformer_w_max_constraints entities.s_transformers timesteps
                   (w_max_dict edges)
               else .ok []) with
        | .error e => .error e
        | .ok stWmax =>
          .ok {
            invest := invest
            timesteps := timesteps
            buses := entities.buses.map Bus.uid
            s_transformers := entities.s_transformers.map Component.uid
            s_chps := entities.s_chps.map Component.uid
            edges := edges
            w_max := w_max_dict edges
            w_index := indexPairs edges timesteps
            w_lower := fun _ _ => 0
            w_upper := fun e _ => if invest then none else w_max_dict edges e
            w_add_index := if invest then edges else []
            bus_constr := (indexPairs (entities.buses.map Bus.uid) timesteps).map
              (fun bt => (bt, bus_rule edges bt.1 bt.2))
            s_chp_eta_constr := chpEta
            s_chp_pth_constr := chpPth
            s_transformer_eta_constr := stEta
            s_transformer_w_max := stWmax
            objective := obj_rule edges timesteps }

theorem indexPairs_mem {α : Type} {cs : List α} {ts : List Nat} {c : α} {t : Nat} :
    (c, t) ∈ indexPairs cs ts ↔ c ∈ cs ∧ t ∈ ts := by
  simp only [indexPairs, List.mem_flatMap, List.mem_map, Prod.mk.injEq]
  constructor
  · rintro ⟨a, ha, t', ht', h1, h2⟩
    subst h1; subst h2; exact ⟨ha, ht'⟩
  · rintro ⟨hc, ht⟩
    exact ⟨c, hc, t, ht, rfl, rfl⟩

theorem indexPairs_length {α : Type} (cs : List α) (ts : List Nat) :
    (indexPairs cs ts).length = cs.length * ts.length := by
  induction cs with
  | nil => simp [indexPairs]
  | cons c cs ih =>
      simp only [indexPairs, List.flatMap_cons, List.length_append,
        List.length_map, List.length_cons] at ih ⊢
      rw [ih, Nat.succ_mul, Nat.add_comm]

theorem mapME_ok_length {α β : Type} {f : α → Except String β} {l : List α}
    {ys : List β} (h : mapME f l = .ok ys) : ys.length = l.length := by
  induction l generalizing ys with
  | nil =>
      simp only [mapME, Except.ok.injEq] at h
      simp [← h]
  | cons x xs ih =>
      simp only [mapME] at h
      cases hfx : f x with
      | error e => rw [hfx] at h; cases h
      | ok y =>
          rw [hfx] at h
          cases hrec : mapME f xs with
          | error e => rw [hrec] at h; cases h
          | ok ys' =>
              rw [hrec] at h
              simp only [Except.ok.injEq] at h
              rw [← h]
              simp [ih hrec]

theorem mapME_ok_of_mem {α β : Type} {f : α → Except String β} {l : List α}
    {ys : List β} (h : mapME f l = .ok ys) :
    ∀ x ∈ l, ∃ y, f x = .ok y ∧ y ∈ ys := by
  induction l generalizing ys with
  | nil => intro x hx; cases hx
  | cons z xs ih =>
      simp only [mapME] at h
      cases hfz : f z with
      | error e => rw [hfz] at h; cases h
      | ok y =>
          rw [hfz] at h
          cases hrec : mapME f xs with
          | error e => rw [hrec] at h; cases h
          | ok ys' =>
              rw [hrec] at h
              simp only [Except.ok.injEq] at h
              intro x hx
              rcases List.mem_cons.mp hx with hx | hx
              · exact ⟨y, hx ▸ hfz, by rw [← h]; exact List.mem_cons_self y ys'⟩
              · rcases ih hrec x hx with ⟨y', hy', hmem⟩
                exact ⟨y', hy', by rw [← h]; exact List.mem_cons_of_mem y hmem⟩

theorem mapME_mem_of_ok {α β : Type} {f : α → Except String β} {l : List α}
    {ys : List β} (h : mapME f l = .ok ys) :
    ∀ y ∈ ys, ∃ x ∈ l, f x = .ok y := by
  induction l generalizing ys with
  | nil =>
      simp only [mapME, Except.ok.injEq] at h
      intro y hy; rw [← h] at hy; cases hy
  | cons z xs ih =>
      simp only [mapME] at h
      cases hfz : f z with
      | error e => rw [hfz] at h; cases h
      | ok y₀ =>
          rw [hfz] at h
          cases hrec : mapME f xs with
          | error e => rw [hrec] at h; cases h
          | ok ys' =>
              rw [hrec] at h
              simp only [Except.ok.injEq] at h
              intro y hy
              rw [← h] at hy
              rcases List.mem_cons.mp hy with hy | hy
              · exact ⟨z, List.mem_cons_self z xs, hy ▸ hfz⟩
              · rcases ih hrec y hy with ⟨x, hx, hfx⟩
                exact ⟨x, List.mem_cons_of_mem z hx, hfx⟩

theorem mapME_ok_of_forall {α β : Type} {f : α → Except String β} {l : List α}
    (h : ∀ x ∈ l, ∃ y, f x = .ok y) : ∃ ys, mapME f l = .ok ys := by
  induction l with
  | nil => exact ⟨[], rfl⟩
  | cons x xs ih =>
      rcases h x (List.mem_cons_self x xs) with ⟨y, hy⟩
      rcases ih (fun z hz => h z (List.mem_cons_of_mem x hz)) with ⟨ys, hys⟩
      exact ⟨y :: ys, by simp [mapME, hy, hys]⟩

theorem mapME_error_of_exists {α β : Type} {f : α → Except String β} {l : List α}
    {msg : String}
    (hall : ∀ x ∈ l, ∀ e, f x = .error e → e = msg)
    (hex : ∃ x ∈ l, ∃ e, f x = .error e) :
    mapME f l = .error msg := by
  induction l with
  | nil => rcases hex with ⟨x, hx, _⟩; cases hx
  | cons z xs ih =>
      cases hfz : f z with
      | error e =>
          have := hall z (List.mem_cons_self z xs) e hfz
          simp [mapME, hfz, this]
      | ok y =>
          have hex' : ∃ x ∈ xs, ∃ e, f x = .error e := by
            rcases hex with ⟨x, hx, e, he⟩
            rcases List.mem_cons.mp hx with hx | hx
            · rw [hx, hfz] at he; cases he
            · exact ⟨x, hx, e, he⟩
          have := ih (fun x hx => hall x (List.mem_cons_of_mem z hx)) hex'
          simp [mapME, hfz, this]

/-- Inversion of a successful model build: every constraint family was
generated successfully and the model is the assembled record. -/
theorem opt_model_ok_inv {entities : Entities} {edges : List Edge}
    {timesteps : List Nat} {invest : Bool} {m : Model}
    (h : opt_model entities edges timesteps invest = .ok m) :
    ∃ chpEta chpPth stEta stWmax,
      constraintFamily s_chp_eta_rule entities.s_chps timesteps = .ok chpEta ∧
      constraintFamily power_to_heat_rule entities.s_chps timesteps = .ok chpPth ∧
      constraintFamily s_transformer_eta_rule entities.s_transformers timesteps
        = .ok stEta ∧
      (if invest then
         s_transformer_w_max_constraints entities.s_transformers timesteps
           (w_max_dict edges)
       else .ok []) = .ok stWmax ∧
      m = { invest := invest
            timesteps := timesteps
            buses := entities.buses.map Bus.uid
            s_transformers := entities.s_transformers.map Component.uid
            s_chps := entities.s_chps.map Component.uid
            edges := edges
            w_max := w_max_dict edges
            w_index := indexPairs edges timesteps
            w_lower := fun _ _ => 0
            w_upper := fun e _ => if invest then none else w_max_dict edges e
            w_add_index := if invest then edges else []
            bus_constr := (indexPairs (entities.buses.map Bus.uid) timesteps).map
              (fun bt => (bt, bus_rule edges bt.1 bt.2))
            s_chp_eta_constr := chpEta
            s_chp_pth_constr := chpPth
            s_transformer_eta_constr := stEta
            s_transformer_w_max := stWmax
            objective := obj_rule edges timesteps } := by
  unfold opt_model at h
  cases h1 : constraintFamily s_chp_eta_rule entities.s_chps timesteps with
  | error e => rw [h1] at h; cases h
  | ok chpEta =>
    rw [h1] at h
    cases h2 : constraintFamily power_to_heat_rule entities.s_chps timesteps with
    | error e => rw [h2] at h; cases h
    | ok chpPth =>
      rw [h2] at h
      cases h3 : constraintFamily s_transformer_eta_rule
          entities.s_transformers timesteps with
      | error e => rw [h3] at h; cases h
      | ok stEta =>
        rw [h3] at h
        cases h4 : (if invest then
            s_transformer_w_max_constraints entities.s_transformers timesteps
              (w_max_dict edges)
          else .ok []) with
        | error e => rw [h4] at h; cases h
        | ok stWmax =>
          rw [h4] at h
          injection h with h'
          exact ⟨chpEta, chpPth, stEta, stWmax, rfl, rfl, rfl, rfl, h'.symm⟩

/-- Status reported by the external LP solver. -/
inductive SolverStatus where
  | optimal
  | infeasible
  | unbounded
  | failure
deriving DecidableEq, Repr

/-- What the external solver hands back: a status and a value for every
variable. -/
structure SolverResults where
  status : SolverStatus
  values : Var → ℚ

/-- The concrete instance produced by `model.create()` and, after
`instance.load(results)`, carrying the solver results. -/
structure ModelInstance where
  model : Model
  loaded : Option SolverResults

/-- `solve_opt_model(model, solver, options, debug)` from the source.
The external solver backend is an abstract parameter `opt`.  The code
creates the instance, calls the solver, loads whatever results come
back into the instance and returns it; there is no inspection of the
solver status anywhere on this path. -/
def solve_opt_model (model : Model) (opt : Model → SolverResults) : ModelInstance :=
  let inst : ModelInstance := { model := model, loaded := none }
  let results := opt model
  { inst with loaded := some results }

/-! Concrete demo network (a small cut of the one in the module demo
code): a coal bus, an electricity bus and a heat bus, one simple
transformer and one CHP. -/

def busB1 : Bus := { uid := "b1", type := "coal" }

def busB2 : Bus := { uid := "b2", type := "elec" }

def busB3 : Bus := { uid := "b3", type := "th" }

def trT1 : Component :=
  { uid := "t1", inputs := [busB1], outputs := [busB2], eta := 0.5 }

def chpC1 : Component :=
  { uid := "c1", inputs := [busB1], outputs := [busB2, busB3], eta := 1 }

def ents0 : Entities :=
  { buses := [busB1, busB2, busB3], s_transformers := [trT1], s_chps := [chpC1] }

def edges0 : List Edge := get_edges [trT1, chpC1]

def ts0 : List Nat := [0]

/-- The model built from the demo network without investment. -/
def m0 : Model :=
  match opt_model ents0 edges0 ts0 false with
  | .ok m => m
  | .error _ => default

/-- The model built from the demo network with investment. -/
def m1 : Model :=
  match opt_model ents0 edges0 ts0 true with
  | .ok m => m
  | .error _ => default

/-- Claim C1: for every bus b in the entities bus list and every
timestep t, the assembled model contains an equality constraint stating
that the sum of flows on edges whose destination is b minus the sum of
flows on edges whose source is b equals 0, and exactly
|buses| * |timesteps| such equality constraints are generated. -/
theorem bus_balance_constraints (entities : Entities) (edges : List Edge)
    (ts : List Nat) (invest : Bool) (m : Model)
    (hm : opt_model entities edges ts invest = .ok m) :
    (∀ b ∈ entities.buses, ∀ t ∈ ts,
      ∃ k, ((b.uid, t), k) ∈ m.bus_constr ∧
        (∃ e, k = Constr.eq e 0) ∧
        ∀ a : Var → ℚ, k.sat a ↔
          ((edges.filter fun ij => ij.2 == b.uid).map fun ij => a (Var.w ij t)).sum
            - ((edges.filter fun ij => ij.1 == b.uid).map fun ij => a (Var.w ij t)).sum
            = 0) ∧
    m.bus_constr.length = entities.buses.length * ts.length := by
  obtain ⟨l1, l2, l3, l4, h1, h2, h3, h4, hm'⟩ := opt_model_ok_inv hm
  subst hm'
  constructor
  · intro b hb t ht
    refine ⟨bus_rule edges b.uid t, ?_, ⟨_, rfl⟩, ?_⟩
    · show _ ∈ (indexPairs (entities.buses.map Bus.uid) ts).map
        (fun bt => (bt, bus_rule edges bt.1 bt.2))
      exact List.mem_map.mpr ⟨(b.uid, t),
        indexPairs_mem.mpr ⟨List.mem_map.mpr ⟨b, hb, rfl⟩, ht⟩, rfl⟩
    · intro a
      simp only [bus_rule, Constr.sat, Expr.eval, sumE_eval, List.map_map,
        Function.comp_def]
      constructor <;> intro h <;> linarith
  · show ((indexPairs (entities.buses.map Bus.uid) ts).map
      (fun bt => (bt, bus_rule edges bt.1 bt.2))).length = _
    simp [indexPairs_length]

/-- Witness for C1 at the concrete demo network. -/
theorem bus_balance_constraints_witness :
    opt_model ents0 edges0 ts0 false = .ok m0 ∧
    m0.bus_constr.length = ents0.buses.length * ts0.length :=
  ⟨rfl, (bus_balance_constraints ents0 edges0 ts0 false m0 rfl).2⟩

/-- Claim C2: for every simple transformer e with first declared input
bus I(e), first declared output bus O(e) and efficiency eta(e), and for
every timestep t, the assembled model contains the equality constraint
w[I(e),e,t] * eta(e) - w[e,O(e),t] = 0. -/
theorem transformer_eta_constraint (entities : Entities) (edges : List Edge)
    (ts : List Nat) (invest : Bool) (m : Model)
    (hm : opt_model entities edges ts invest = .ok m) :
    ∀ c ∈ entities.s_transformers, ∀ i o ri ro,
      c.inputs = i :: ri → c.outputs = o :: ro →
      ∀ t ∈ ts, ∃ k, ((c.uid, t), k) ∈ m.s_transformer_eta_constr ∧
        (∃ e, k = Constr.eq e 0) ∧
        ∀ a : Var → ℚ, k.sat a ↔
          a (Var.w (i.uid, c.uid) t) * c.eta - a (Var.w (c.uid, o.uid) t) = 0 := by
  obtain ⟨l1, l2, l3, l4, h1, h2, h3, h4, hm'⟩ := opt_model_ok_inv hm
  subst hm'
  intro c hc i o ri ro hin hout t ht
  unfold constraintFamily at h3
  obtain ⟨y, hy, hyl⟩ := mapME_ok_of_mem h3 (c, t) (indexPairs_mem.mpr ⟨hc, ht⟩)
  have hr : s_transformer_eta_rule c t =
      .ok (.eq (.add (.add (.const 0) (.mulc (.var (.w (i.uid, c.uid) t)) c.eta))
        (.neg (.var (.w (c.uid, o.uid) t)))) 0) := by
    simp [s_transformer_eta_rule, hin, hout]
  rw [hr] at hy
  simp only [Except.ok.injEq] at hy
  rcases hy with rfl
  exact ⟨_, hyl, ⟨_, rfl⟩, fun a => by
    simp only [Constr.sat, Expr.eval]
    constructor <;> intro h <;> linarith⟩

/-- Witness for C2 at the concrete demo network: the transformer t1 has
input b1, output b2 and efficiency 1/2. -/
theorem transformer_eta_constraint_witness :
    opt_model ents0 edges0 ts0 false = .ok m0 ∧ trT1 ∈ ents0.s_transformers ∧
    trT1.inputs = busB1 :: [] ∧ trT1.outputs = busB2 :: [] ∧ (0 : Nat) ∈ ts0 ∧
    ∃ k, (("t1", 0), k) ∈ m0.s_transformer_eta_constr ∧
      (∃ e, k = Constr.eq e 0) ∧
      ∀ a : Var → ℚ, k.sat a ↔
        a (Var.w ("b1", "t1") 0) * trT1.eta - a (Var.w ("t1", "b2") 0) = 0 :=
  ⟨rfl, by simp [ents0], rfl, rfl, by simp [ts0],
    transformer_eta_constraint ents0 edges0 ts0 false m0 rfl trT1
      (by simp [ents0]) busB1 busB2 [] [] rfl rfl 0 (by simp [ts0])⟩

/-- Claim C3: for every CHP e with first declared input bus I(e) and
ordered outputs [power, heat], and for every timestep t, the assembled
model contains the two equality constraints
w[I(e),e,t] - (w[e,power,t] + w[e,heat,t]) / 0.8 = 0 and
w[e,power,t] - w[e,heat,t] * 0.6 = 0, with the fixed constants 0.8 and
0.6; each of the two CHP families contributes exactly one constraint
per (CHP, timestep) pair. -/
theorem chp_constraints (entities : Entities) (edges : List Edge)
    (ts : List Nat) (invest : Bool) (m : Model)
    (hm : opt_model entities edges ts invest = .ok m) :
    (∀ c ∈ entities.s_chps, ∀ i ri p h, c.inputs = i :: ri → c.outputs = [p, h] →
      ∀ t ∈ ts,
      (∃ k1, ((c.uid, t), k1) ∈ m.s_chp_eta_constr ∧ (∃ e, k1 = Constr.eq e 0) ∧
        ∀ a : Var → ℚ, k1.sat a ↔
          a (Var.w (i.uid, c.uid) t)
            - (a (Var.w (c.uid, p.uid) t) + a (Var.w (c.uid, h.uid) t)) / (0.8 : ℚ)
            = 0) ∧
      (∃ k2, ((c.uid, t), k2) ∈ m.s_chp_pth_constr ∧ (∃ e, k2 = Constr.eq e 0) ∧
        ∀ a : Var → ℚ, k2.sat a ↔
          a (Var.w (c.uid, p.uid) t) - a (Var.w (c.uid, h.uid) t) * (0.6 : ℚ)
            = 0)) ∧
    m.s_chp_eta_constr.length = entities.s_chps.length * ts.length ∧
    m.s_chp_pth_constr.length = entities.s_chps.length * ts.length := by
  obtain ⟨l1, l2, l3, l4, h1, h2, h3, h4, hm'⟩ := opt_model_ok_inv hm
  subst hm'
  unfold constraintFamily at h1 h2
  refine ⟨?_, ?_, ?_⟩
  · intro c hc i ri p h hin hout t ht
    constructor
    · obtain ⟨y, hy, hyl⟩ := mapME_ok_of_mem h1 (c, t) (indexPairs_mem.mpr ⟨hc, ht⟩)
      have hr : s_chp_eta_rule c t =
          .ok (.eq (.add (.add (.const 0) (.var (.w (i.uid, c.uid) t)))
            (.divc (.neg (sumE ([p, h].map fun o =>
              .var (.w (c.uid, o.uid) t)))) (0.8 : ℚ))) 0) := by
        simp [s_chp_eta_rule, hin, hout]
      rw [hr] at hy
      simp only [Except.ok.injEq] at hy
      rcases hy with rfl
      refine ⟨_, hyl, ⟨_, rfl⟩, fun a => ?_⟩
      simp only [Constr.sat, Expr.eval, sumE_eval, List.map_map, List.map_cons,
        List.map_nil, Function.comp_def, List.sum_cons, List.sum_nil]
      constructor <;> intro hq <;> linear_combination hq
    · obtain ⟨y, hy, hyl⟩ := mapME_ok_of_mem h2 (c, t) (indexPairs_mem.mpr ⟨hc, ht⟩)
      have hr : power_to_heat_rule c t =
          .ok (.eq (.add (.add (.const 0) (.var (.w (c.uid, p.uid) t)))
            (.mulc (.neg (.var (.w (c.uid, h.uid) t))) (0.6 : ℚ))) 0) := by
        simp [power_to_heat_rule, hout]
      rw [hr] at hy
      simp only [Except.ok.injEq] at hy
      rcases hy with rfl
      refine ⟨_, hyl, ⟨_, rfl⟩, fun a => ?_⟩
      simp only [Constr.sat, Expr.eval]
      constructor <;> intro hq <;> linear_combination hq
  · show l1.length = _
    rw [mapME_ok_length h1, indexPairs_length]
  · show l2.length = _
    rw [mapME_ok_length h2, indexPairs_length]

/-- Witness for C3 at the concrete demo network: the CHP c1 has input
b1 and outputs [b2, b3]. -/
theorem chp_constraints_witness :
    opt_model ents0 edges0 ts0 false = .ok m0 ∧ chpC1 ∈ ents0.s_chps ∧
    chpC1.inputs = busB1 :: [] ∧ chpC1.outputs = [busB2, busB3] ∧
    (0 : Nat) ∈ ts0 ∧
    (∃ k1, (("c1", 0), k1) ∈ m0.s_chp_eta_constr ∧ (∃ e, k1 = Constr.eq e 0) ∧
      ∀ a : Var → ℚ, k1.sat a ↔
        a (Var.w ("b1", "c1") 0)
          - (a (Var.w ("c1", "b2") 0) + a (Var.w ("c1", "b3") 0)) / (0.8 : ℚ)
          = 0) ∧
    (∃ k2, (("c1", 0), k2) ∈ m0.s_chp_pth_constr ∧ (∃ e, k2 = Constr.eq e 0) ∧
      ∀ a : Var → ℚ, k2.sat a ↔
        a (Var.w ("c1", "b2") 0) - a (Var.w ("c1", "b3") 0) * (0.6 : ℚ) = 0) :=
  ⟨rfl, by simp [ents0], rfl, rfl, by simp [ts0],
    ((chp_constraints ents0 edges0 ts0 false m0 rfl).1 chpC1
      (by simp [ents0]) busB1 [] busB2 busB3 rfl rfl 0 (by simp [ts0])).1,
    ((chp_constraints ents0 edges0 ts0 false m0 rfl).1 chpC1
      (by simp [ents0]) busB1 [] busB2 busB3 rfl rfl 0 (by simp [ts0])).2⟩

/-- Claim C4: when the investment flag is false, every flow variable
w[edge,t] is bounded to [0, 100] (the capacity dictionary assigns the
constant 100 to every edge; the code offers no way for a caller to
supply other capacities); when the flag is true, every flow variable is
bounded to [0, infinity) and one additional variable w_add[edge] in
[0, infinity) is declared for every edge. -/
theorem flow_variable_bounds (entities : Entities) (edges : List Edge)
    (ts : List Nat) (invest : Bool) (m : Model)
    (hm : opt_model entities edges ts invest = .ok m) :
    m.w_index = indexPairs edges ts ∧
    (invest = false → m.w_add_index = [] ∧
      ∀ e ∈ edges, m.w_max e = some 100 ∧
        ∀ t, m.w_lower e t = 0 ∧ m.w_upper e t = some 100) ∧
    (invest = true → m.w_add_index = edges ∧
      ∀ e t, m.w_lower e t = 0 ∧ m.w_upper e t = none) := by
  obtain ⟨l1, l2, l3, l4, h1, h2, h3, h4, hm'⟩ := opt_model_ok_inv hm
  subst hm'
  refine ⟨rfl, ?_, ?_⟩
  · rintro rfl
    refine ⟨rfl, ?_⟩
    intro e he
    have hw : w_max_dict edges e = some 100 := by simp [w_max_dict, he]
    exact ⟨hw, fun t => ⟨rfl, by simp [hw]⟩⟩
  · rintro rfl
    exact ⟨rfl, fun e t => ⟨rfl, rfl⟩⟩

/-- Witness for C4 at the concrete demo network, in both modes. -/
theorem flow_variable_bounds_witness :
    (opt_model ents0 edges0 ts0 false = .ok m0 ∧
      m0.w_add_index = [] ∧ ("b1", "t1") ∈ edges0 ∧
      m0.w_lower ("b1", "t1") 0 = 0 ∧ m0.w_upper ("b1", "t1") 0 = some 100) ∧
    (opt_model ents0 edges0 ts0 true = .ok m1 ∧
      m1.w_add_index = edges0 ∧
      m1.w_lower ("b1", "t1") 0 = 0 ∧ m1.w_upper ("b1", "t1") 0 = none) := by
  have he : ("b1", "t1") ∈ edges0 := by decide
  have h0 := flow_variable_bounds ents0 edges0 ts0 false m0 rfl
  have h1 := flow_variable_bounds ents0 edges0 ts0 true m1 rfl
  refine ⟨⟨rfl, (h0.2.1 rfl).1, he, ?_, ?_⟩, ⟨rfl, (h1.2.2 rfl).1, ?_, ?_⟩⟩
  · exact (((h0.2.1 rfl).2 _ he).2 0).1
  · exact (((h0.2.1 rfl).2 _ he).2 0).2
  · exact ((h1.2.2 rfl).2 ("b1", "t1") 0).1
  · exact ((h1.2.2 rfl).2 ("b1", "t1") 0).2

/-- Claim C5: when the investment flag is true, the model adds for
every edge of a simple transformer and every timestep the inequality
w[i,j,t] <= capacity(i,j) + w_add[i,j] (capacity looked up in the
dictionary, 100 on every declared edge), adds no capacity constraint
for any other edge, and leaves every flow variable unbounded above. -/
theorem investment_capacity_constraints (entities : Entities)
    (edges : List Edge) (ts : List Nat) (m : Model)
    (hm : opt_model entities edges ts true = .ok m) :
    (∀ ij ∈ get_edges entities.s_transformers, ij ∈ edges → ∀ t ∈ ts,
      ((ij, t), Constr.le (.var (.w ij t))
        (.add (.const 100) (.var (.w_add ij)))) ∈ m.s_transformer_w_max) ∧
    (∀ ij t k, ((ij, t), k) ∈ m.s_transformer_w_max →
      ij ∈ get_edges entities.s_transformers ∧ t ∈ ts) ∧
    (∀ e t, m.w_upper e t = none) := by
  obtain ⟨l1, l2, l3, l4, h1, h2, h3, h4, hm'⟩ := opt_model_ok_inv hm
  subst hm'
  simp only [if_true] at h4
  unfold s_transformer_w_max_constraints at h4
  refine ⟨?_, ?_, fun e t => rfl⟩
  · intro ij hij hije t ht
    obtain ⟨y, hy, hyl⟩ := mapME_ok_of_mem h4 (ij, t) (indexPairs_mem.mpr ⟨hij, ht⟩)
    have hr : w_bound_investment (w_max_dict edges) ij t =
        .ok (.le (.var (.w ij t)) (.add (.const 100) (.var (.w_add ij)))) := by
      simp [w_bound_investment, w_max_dict, hije]
    rw [hr] at hy
    simp only [Except.ok.injEq] at hy
    rcases hy with rfl
    exact hyl
  · intro ij t k hk
    obtain ⟨x, hx, hfx⟩ := mapME_mem_of_ok h4 ((ij, t), k) hk
    rcases x with ⟨ij', t'⟩
    have hx' := indexPairs_mem.mp hx
    cases hb : w_bound_investment (w_max_dict edges) ij' t' with
    | error e => rw [hb] at hfx; cases hfx
    | ok k' =>
        rw [hb] at hfx
        simp only [Except.ok.injEq, Prod.mk.injEq] at hfx
        obtain ⟨⟨hij, hts⟩, _⟩ := hfx
        subst hij; subst hts
        exact hx'

/-- Witness for C5 at the concrete demo network with investment on:
the transformer edges are (b1,t1) and (t1,b2). -/
theorem investment_capacity_constraints_witness :
    opt_model ents0 edges0 ts0 true = .ok m1 ∧
    ("b1", "t1") ∈ get_edges ents0.s_transformers ∧ ("b1", "t1") ∈ edges0 ∧
    (0 : Nat) ∈ ts0 ∧
    ((("b1", "t1"), 0), Constr.le (.var (.w ("b1", "t1") 0))
      (.add (.const 100) (.var (.w_add ("b1", "t1"))))) ∈ m1.s_transformer_w_max ∧
    m1.w_upper ("b2", "x") 5 = none :=
  ⟨rfl, by decide, by decide, by simp [ts0],
    (investment_capacity_constraints ents0 edges0 ts0 m1 rfl).1 ("b1", "t1")
      (by decide) (by decide) 0 (by simp [ts0]),
    (investment_capacity_constraints ents0 edges0 ts0 m1 rfl).2.2 ("b2", "x") 5⟩

theorem obj_rule_eval (a : Var → ℚ) (edges : List Edge) (ts : List Nat) :
    (obj_rule edges ts).eval a =
      (edges.map fun ij => ((ts.map fun t => a (Var.w ij t)).sum)).sum := by
  rw [obj_rule, sumE_eval]
  induction edges with
  | nil => simp
  | cons ij es ih =>
      simp only [List.flatMap_cons, List.map_append, List.sum_append, ih,
        List.map_map, List.map_cons, List.sum_cons, Function.comp_def, Expr.eval]

/-- Claim C9: the assembled objective is the scalar sum of the flow
variables w[edge,t] over all edges and all timesteps, with coefficient
1 on every term (no per-edge cost or weight). -/
theorem objective_total_flow (entities : Entities) (edges : List Edge)
    (ts : List Nat) (invest : Bool) (m : Model)
    (hm : opt_model entities edges ts invest = .ok m) :
    ∀ a : Var → ℚ, m.objective.eval a =
      (edges.map fun ij => ((ts.map fun t => a (Var.w ij t)).sum)).sum := by
  obtain ⟨l1, l2, l3, l4, h1, h2, h3, h4, hm'⟩ := opt_model_ok_inv hm
  subst hm'
  intro a
  exact obj_rule_eval a edges ts

/-- Witness for C9: on the demo network the objective evaluates, under
the assignment giving every variable the value 1, to the number of
(edge, timestep) pairs. -/
theorem objective_total_flow_witness :
    opt_model ents0 edges0 ts0 false = .ok m0 ∧
    m0.objective.eval (fun _ => 1) =
      (edges0.map fun ij => ((ts0.map fun t =>
        (fun _ : Var => (1 : ℚ)) (Var.w ij t)).sum)).sum ∧
    (edges0.map fun ij => ((ts0.map fun t =>
      (fun _ : Var => (1 : ℚ)) (Var.w ij t)).sum)).sum = 5 :=
  ⟨rfl, objective_total_flow ents0 edges0 ts0 false m0 rfl (fun _ => 1),
    by simp [edges0, get_edges, ts0, trT1, chpC1, busB1, busB2, busB3]; norm_num⟩

/-- The only error the power-to-heat rule can raise is the IndexError
from reading the second output. -/
theorem power_to_heat_rule_error {c : Component} {t : Nat} {e : String}
    (h : power_to_heat_rule c t = .error e) :
    e = "IndexError: list index out of range" := by
  unfold power_to_heat_rule at h
  split at h
  · cases h
  · injection h with h'
    exact h'.symm

/-- A CHP with fewer than two outputs makes the power-to-heat rule
raise IndexError. -/
theorem power_to_heat_rule_short {c : Component} {t : Nat}
    (h : c.outputs.length ≤ 1) :
    power_to_heat_rule c t = .error "IndexError: list index out of range" := by
  rcases hc : c.outputs with _ | ⟨p, _ | ⟨q, rest⟩⟩
  · simp [power_to_heat_rule, hc]
  · simp [power_to_heat_rule, hc]
  · rw [hc] at h
    simp at h

/-- A CHP with at least one input makes the CHP energy-balance rule
succeed. -/
theorem s_chp_eta_rule_ok {c : Component} {t : Nat} (h : c.inputs ≠ []) :
    ∃ k, s_chp_eta_rule c t = .ok k := by
  unfold s_chp_eta_rule
  rcases hc : c.inputs with _ | ⟨i, rest⟩
  · exact absurd hc h
  · exact ⟨_, rfl⟩

/-- A CHP declared with a single output: the build aborts with the
Python IndexError raised by `O[e][1]` inside `power_to_heat_rule`. -/
def chpOneOut : Component :=
  { uid := "c9", inputs := [busB1], outputs := [busB2], eta := 1 }

def entsBad : Entities :=
  { buses := [busB1, busB2], s_transformers := [], s_chps := [chpOneOut] }

def edgesBad : List Edge := get_edges [chpOneOut]

/-- Counterexample to claim C7 as stated: on an entities input whose
single CHP has only one output, model construction fails with the
IndexError message from indexing the missing second output, not with a
ConfigurationError (no such error kind exists anywhere in the code);
moreover the CHP energy-balance constraint family on the same input is
generated successfully (one constraint), i.e. constraints are generated
before the failure point, so the failure is not fail-fast. -/
theorem chp_single_output_counterexample :
    chpOneOut.outputs.length = 1 ∧
    opt_model entsBad edgesBad [0] false
      = .error "IndexError: list index out of range" ∧
    (∃ k, constraintFamily s_chp_eta_rule entsBad.s_chps [0]
      = .ok [(("c9", 0), k)]) :=
  ⟨rfl, rfl, ⟨_, rfl⟩⟩

/-- Claim C7 amended: for every entities input containing a CHP with
fewer than two outputs (every CHP having at least one input and the
timestep list nonempty), model construction does not raise a
ConfigurationError - it fails with the IndexError raised while
generating the power-to-heat constraints - and by then the CHP
energy-balance family (|s_chps| * |timesteps| constraints, generated
together with the bus balance family before the failing family in the
construction order of the source) has already been generated. -/
theorem chp_single_output_amended (entities : Entities) (edges : List Edge)
    (ts : List Nat) (invest : Bool)
    (hin : ∀ c ∈ entities.s_chps, c.inputs ≠ [])
    (hbad : ∃ c ∈ entities.s_chps, c.outputs.length ≤ 1)
    (hts : ts ≠ []) :
    opt_model entities edges ts invest
      = .error "IndexError: list index out of range" ∧
    ∃ l, constraintFamily s_chp_eta_rule entities.s_chps ts = .ok l ∧
      l.length = entities.s_chps.length * ts.length := by
  have heta : ∃ l, constraintFamily s_chp_eta_rule entities.s_chps ts = .ok l := by
    unfold constraintFamily
    apply mapME_ok_of_forall
    intro ct hct
    obtain ⟨k, hk⟩ := s_chp_eta_rule_ok (hin ct.1 (indexPairs_mem.mp hct).1)
    exact ⟨((ct.1.uid, ct.2), k), by rw [hk]⟩
  obtain ⟨l, hl⟩ := heta
  have hpth : constraintFamily power_to_heat_rule entities.s_chps ts
      = .error "IndexError: list index out of range" := by
    unfold constraintFamily
    apply mapME_error_of_exists
    · intro ct hct e he
      cases hr : power_to_heat_rule ct.1 ct.2 with
      | error e' =>
          rw [hr] at he
          injection he with he'
          rw [← he']
          exact power_to_heat_rule_error hr
      | ok k => rw [hr] at he; cases he
    · obtain ⟨c, hc, hclen⟩ := hbad
      cases hts' : ts with
      | nil => exact absurd hts' hts
      | cons t ts' =>
          refine ⟨(c, t), indexPairs_mem.mpr ⟨hc, List.mem_cons_self t ts'⟩,
            "IndexError: list index out of range", ?_⟩
          have hr := power_to_heat_rule_short (c := c) (t := t) hclen
          simp [hr]
  refine ⟨?_, l, hl, ?_⟩
  · unfold opt_model
    rw [hl, hpth]
  · unfold constraintFamily at hl
    rw [mapME_ok_length hl, indexPairs_length]

/-- Witness for the amended C7 at the concrete one-output CHP input. -/
theorem chp_single_output_amended_witness :
    (∀ c ∈ entsBad.s_chps, c.inputs ≠ []) ∧
    (∃ c ∈ entsBad.s_chps, c.outputs.length ≤ 1) ∧
    (([0] : List Nat) ≠ []) ∧
    opt_model entsBad edgesBad [0] true
      = .error "IndexError: list index out of range" :=
  ⟨by decide, ⟨chpOneOut, by decide, by decide⟩, by simp,
    (chp_single_output_amended entsBad edgesBad [0] true (by decide)
      ⟨chpOneOut, by decide, by decide⟩ (by simp)).1⟩

/-- Solver results reporting infeasibility, with arbitrary values. -/
def infeasibleResults : SolverResults :=
  { status := .infeasible, values := fun _ => 0 }

/-- A solver backend that reports every model infeasible. -/
def failingSolver : Model → SolverResults := fun _ => infeasibleResults

/-- Counterexample to claim C8 as stated: when the external solver
reports status infeasible, `solve_opt_model` does not return a distinct
error kind (`InfeasibleModel` / `UnboundedModel` exist nowhere in the
code) - it returns the instance with the infeasible results loaded,
exactly as it would for an optimal solve. -/
theorem solve_masks_failure_counterexample :
    infeasibleResults.status = SolverStatus.infeasible ∧
    solve_opt_model m0 failingSolver
      = { model := m0, loaded := some infeasibleResults } :=
  ⟨rfl, rfl⟩

/-- Claim C8 amended: `solve_opt_model` never inspects the solver
status: for every model and every solver backend it returns the created
instance with whatever results the backend produced loaded into it -
including when the status is infeasible or unbounded; no
InfeasibleModel or UnboundedModel error kind exists in the code, and a
failure status is returned exactly like a success. -/
theorem solve_returns_instance_unconditionally (model : Model)
    (opt : Model → SolverResults) :
    solve_opt_model model opt
      = { model := model, loaded := some (opt model) } ∧
    (solve_opt_model model opt).loaded ≠ none :=
  ⟨rfl, by simp [solve_opt_model]⟩

end EnergyModel
